import Mathlib

/-!
# Verification of the thumbnail renderer (`src/lib/actions.ts`)

A shallow embedding of the two server actions `generateThumbnail` and
`generateThumbnailWithImage`.  JavaScript strings are modelled as `List Char`;
the canvas `measureText` font metric is abstracted as a function
`List Char → ℕ` (the renderer only compares measured widths against a
constant, so the codomain's only role is the `<` test); async I/O is
modelled as an except-state monad recording a trace of filesystem effects.
-/

namespace Thumbnail

/-- Canvas width in logical pixels (`const canvasWidth = 800`). -/
def canvasWidth : Nat := 800

/-- Canvas height in logical pixels (`const canvasHeight = 400`). -/
def canvasHeight : Nat := 400

/-- Side padding (`const padding = 20`). -/
def padding : Nat := 20

/-- Height between lines (`const lineHeight = 50`). -/
def lineHeight : Nat := 50

/-- Text area width (`const maxTextWidth = canvasWidth - padding * 2`). -/
def maxTextWidth : Nat := canvasWidth - padding * 2

/-- JavaScript `title.split(' ')`: split on each occurrence of the single
space character, keeping empty segments (so `"".split(' ') = [""]` and
`"a  b".split(' ') = ["a", "", "b"]`). -/
def splitOnChar (sep : Char) : List Char → List (List Char)
  | [] => [[]]
  | c :: cs =>
    if c = sep then [] :: splitOnChar sep cs
    else
      match splitOnChar sep cs with
      | [] => [[c]]
      | w :: ws => (c :: w) :: ws

/-- Loop body of the word-wrap loop: the state is the pair
`(lines, currentLine)`; the next word either extends `currentLine`
(when `measureText(currentLine + ' ' + word).width < maxTextWidth`) or
`currentLine` is pushed onto `lines` and the word starts the next line. -/
def wrapStep (measure : List Char → Nat)
    (st : List (List Char) × List Char) (w : List Char) :
    List (List Char) × List Char :=
  if measure (st.2 ++ ' ' :: w) < maxTextWidth then (st.1, st.2 ++ ' ' :: w)
  else (st.1 ++ [st.2], w)

/-- The word-wrap loop of `generateThumbnail` (`src/lib/actions.ts:31-45`):
`words = title.split(' ')`, `currentLine = words[0]`, then for each later
word measure `currentLine + ' ' + word` and either extend the current line
(measured width strictly below `maxTextWidth`) or commit it and start a new
line with the word; the final current line is pushed after the loop. -/
def wrapText (measure : List Char → Nat) (title : List Char) :
    List (List Char) :=
  let words := splitOnChar ' ' title
  let fin := words.tail.foldl (wrapStep measure) ([], words.headD [])
  fin.1 ++ [fin.2]

/-- The greedy line-breaking policy described by the specification, as a
structural recursion over the word list: starting from the current line
`cur`, each word either extends `cur` (candidate `cur + ' ' + w` measures
strictly below the limit) or `cur` is committed and the word starts the
next line; the final line is committed at the end. -/
def greedyLines (measure : List Char → Nat) :
    List Char → List (List Char) → List (List Char)
  | cur, [] => [cur]
  | cur, w :: ws =>
    if measure (cur ++ ' ' :: w) < maxTextWidth then
      greedyLines measure (cur ++ ' ' :: w) ws
    else cur :: greedyLines measure w ws

/-- The reference algorithm of the claim, fed by the space-character split
(the split the code performs). -/
def specGreedySpace (measure : List Char → Nat) (title : List Char) :
    List (List Char) :=
  let words := splitOnChar ' ' title
  greedyLines measure (words.headD []) words.tail

/-- A whitespace character in the usual tokenizer sense. -/
def isWhitespaceChar (c : Char) : Bool :=
  c = ' ' || c = '\t' || c = '\n' || c = '\r'

/-- Tokenize on runs of whitespace, dropping empty tokens: the ordinary
meaning of "split the title on whitespace into words". -/
def wsWordsAux (acc : List Char) : List Char → List (List Char)
  | [] => if acc.isEmpty then [] else [acc]
  | c :: cs =>
    if isWhitespaceChar c then
      if acc.isEmpty then wsWordsAux [] cs else acc :: wsWordsAux [] cs
    else wsWordsAux (acc ++ [c]) cs

/-- Split a title on whitespace into (non-empty) words. -/
def wsWords (title : List Char) : List (List Char) :=
  wsWordsAux [] title

/-- The reference algorithm of the claim read literally: the greedy policy
over the whitespace tokenization of the title. -/
def specGreedyWhitespace (measure : List Char → Nat) (title : List Char) :
    List (List Char) :=
  let words := wsWords title
  greedyLines measure (words.headD []) words.tail

/-- A concrete font metric for counterexamples: every character is 10
pixels wide. -/
def mTen (l : List Char) : Nat := 10 * l.length

/-- A character matched by the class `[a-z0-9]` of `/[^a-z0-9]/gi`, i.e.
an ASCII letter (either case, because of the `i` flag) or digit. -/
def isAsciiAlnumCI (c : Char) : Bool :=
  ('a' ≤ c && c ≤ 'z') || ('A' ≤ c && c ≤ 'Z') || ('0' ≤ c && c ≤ '9')

/-- `title.replace(/[^a-z0-9]/gi, '_')`. -/
def replaceNonAlnum (l : List Char) : List Char :=
  l.map fun c => if isAsciiAlnumCI c then c else '_'

/-- `.toLowerCase()`. -/
def toLowerAll (l : List Char) : List Char :=
  l.map Char.toLower

/-- The sanitization applied by `generateThumbnailWithImage`:
`title.replace(/[^a-z0-9]/gi, '_').toLowerCase()`. -/
def sanitizeFilename (title : List Char) : List Char :=
  toLowerAll (replaceNonAlnum title)

/-- Filename used by `generateThumbnail` (`src/lib/actions.ts:62` and `:67`):
the raw title with `.png` appended — no sanitization. -/
def thumbFilename (title : List Char) : List Char :=
  title ++ (".png".data)

/-- Filename used by `generateThumbnailWithImage`
(`src/lib/actions.ts:130` and `:135`): the sanitized title with `.png`. -/
def thumbFilenameWithImage (title : List Char) : List Char :=
  sanitizeFilename title ++ (".png".data)

/-- Output path of `generateThumbnail`, relative to `process.cwd()`
(the embedding joins the segments of `path.join` with `/` and does not
perform `path.join`'s `..`-normalization). -/
def outputPath (title : List Char) : List Char :=
  ("public/thumbnails/".data) ++ thumbFilename title

/-- Public URL returned by `generateThumbnail`. -/
def returnedUrl (title : List Char) : List Char :=
  ("/thumbnails/".data) ++ thumbFilename title

/-- Output path of `generateThumbnailWithImage`, relative to
`process.cwd()`. -/
def outputPathWithImage (title : List Char) : List Char :=
  ("public/thumbnails/".data) ++ thumbFilenameWithImage title

/-- Public URL returned by `generateThumbnailWithImage`. -/
def returnedUrlWithImage (title : List Char) : List Char :=
  ("/thumbnails/".data) ++ thumbFilenameWithImage title

/-- `ctx.font = 'bold 40px Arial'`. -/
def fontSpec : String := "bold 40px Arial"

/-- `ctx.fillStyle = '#ffffff'`. -/
def fillSpec : String := "#ffffff"

/-- One `ctx.fillText(line, x, y)` call together with the font and fill
style active when it is issued. -/
structure DrawCmd where
  text : List Char
  x : Int
  y : Int
  font : String
  fill : String
deriving DecidableEq

/-- The draw loop (`src/lib/actions.ts:52-55`): each line is drawn at
`x = canvasWidth / 2` and the running `y`, which advances by `lineHeight`
after every line. -/
def drawLines (y : Int) : List (List Char) → List DrawCmd
  | [] => []
  | l :: ls =>
    ⟨l, (canvasWidth : Int) / 2, y, fontSpec, fillSpec⟩ ::
      drawLines (y + (lineHeight : Int)) ls

/-- The full text pass of `generateThumbnail` (`src/lib/actions.ts:47-55`):
wrap the title, set `totalTextHeight = lines.length * lineHeight`, start at
`y = (canvasHeight - totalTextHeight) / 2 + lineHeight / 2` and draw each
line in order. -/
def textDraws (measure : List Char → Nat) (title : List Char) :
    List DrawCmd :=
  let lines := wrapText measure title
  let totalTextHeight : Int := (lines.length : Int) * (lineHeight : Int)
  drawLines (((canvasHeight : Int) - totalTextHeight) / 2 +
    (lineHeight : Int) / 2) lines

/-- The word-wrap loop of `generateThumbnailWithImage`
(`src/lib/actions.ts:99-113`); the source duplicates the loop of
`generateThumbnail` verbatim, and so does the embedding. -/
def wrapTextWithImage (measure : List Char → Nat) (title : List Char) :
    List (List Char) :=
  let words := splitOnChar ' ' title
  let fin := words.tail.foldl
    (fun st w =>
      if measure (st.2 ++ ' ' :: w) < maxTextWidth then
        (st.1, st.2 ++ ' ' :: w)
      else (st.1 ++ [st.2], w))
    ([], words.headD [])
  fin.1 ++ [fin.2]

/-- The text pass of `generateThumbnailWithImage`
(`src/lib/actions.ts:115-123`), again duplicated verbatim in the source. -/
def textDrawsWithImage (measure : List Char → Nat) (title : List Char) :
    List DrawCmd :=
  let lines := wrapTextWithImage measure title
  let totalTextHeight : Int := (lines.length : Int) * (lineHeight : Int)
  drawLines (((canvasHeight : Int) - totalTextHeight) / 2 +
    (lineHeight : Int) / 2) lines

/-- Errors surfaced by the canvas library or the filesystem. -/
abbrev Err := String

/-- A filesystem side effect attempted by a render call. -/
inductive FsEffect where
  | loadImage (path : List Char)
  | writeFile (path : List Char)
deriving DecidableEq

/-- Model of the `async` function body: sequencing that short-circuits on a
rejected promise, while recording the trace of attempted effects. -/
abbrev AsyncM (α : Type) := List FsEffect → Except Err α × List FsEffect

instance : Monad AsyncM where
  pure a := fun tr => (.ok a, tr)
  bind m f := fun tr =>
    match m tr with
    | (.ok a, tr') => f a tr'
    | (.error e, tr') => (.error e, tr')

/-- `await` of one external call: the effect is attempted exactly once and
its outcome (resolution or rejection) is supplied as `res`. -/
def awaitEffect (res : Except Err α) (eff : FsEffect) : AsyncM α :=
  fun tr => (res, tr ++ [eff])

/-- `generateThumbnail` (`src/lib/actions.ts:7-68`) as an effect model:
canvas creation, background gradient and text drawing are pure
(`textDraws`); the single external call is `writeFile(outputPath, buffer)`,
whose outcome is the parameter `writeRes`; on success the public URL is
returned. -/
def generateThumbnail (measure : List Char → Nat)
    (writeRes : Except Err Unit) (title : List Char) :
    AsyncM (List Char) := do
  let _draws := textDraws measure title
  let _ ← awaitEffect writeRes (.writeFile (outputPath title))
  pure (returnedUrl title)

/-- `generateThumbnailWithImage` (`src/lib/actions.ts:70-136`) as an effect
model: first `await loadImage(gradientImagePath)` (outcome `loadRes`), then
the pure drawing, then `await writeFile(outputPath, buffer)` (outcome
`writeRes`), then return the public URL. -/
def generateThumbnailWithImage (measure : List Char → Nat)
    (loadRes : Except Err Unit) (writeRes : Except Err Unit)
    (title : List Char) : AsyncM (List Char) := do
  let _ ← awaitEffect loadRes (.loadImage ("public/gradient-bg.png".data))
  let _draws := textDrawsWithImage measure title
  let _ ← awaitEffect writeRes (.writeFile (outputPathWithImage title))
  pure (returnedUrlWithImage title)

/-- The canvas contents at encoding time: the background that was drawn
(asset or gradient raster) and the text draw calls issued on top of it. -/
structure Canvas where
  background : List Nat
  draws : List DrawCmd

/-- The public directory, as a map from paths to file bytes. -/
abbrev FS := List Char → Option (List Nat)

/-- `fs.writeFile`: creates or overwrites the file at `p`. -/
def writeFS (fs : FS) (p : List Char) (b : List Nat) : FS :=
  fun q => if q = p then some b else fs q

/-- One successful run of the image-variant renderer against a filesystem:
draw the background `bg` and the wrapped title, encode the canvas to PNG
bytes with `encode`, write them at the sanitized output path, and return
the public URL paired with the bytes written. -/
def renderOnce (encode : Canvas → List Nat) (bg : List Nat)
    (measure : List Char → Nat) (title : List Char) (fs : FS) :
    (List Char × List Nat) × FS :=
  let c : Canvas := ⟨bg, textDrawsWithImage measure title⟩
  let bytes := encode c
  ((returnedUrlWithImage title, bytes),
    writeFS fs (outputPathWithImage title) bytes)

/-- Tail of a space-joined list: one leading space before each further
segment. -/
def joinRest : List (List Char) → List Char
  | [] => []
  | w :: ws => ' ' :: (w ++ joinRest ws)

/-- Join segments with single spaces (left inverse of `splitOnChar ' '`). -/
def joinSpace : List (List Char) → List Char
  | [] => []
  | l :: ls => l ++ joinRest ls

/-- A URL that locates a file directly inside the thumbnails directory:
it starts with `/thumbnails/`, ends with `.png`, and the filename between
the two contains no path separator. -/
def directThumbUrl (u : List Char) : Bool :=
  (u.take 12 == "/thumbnails/".data) &&
  (u.drop (u.length - 4) == ".png".data) &&
  ((u.drop 12).take (u.length - 16)).all (fun c => c != '/')

theorem splitOnChar_ne_nil (sep : Char) (l : List Char) :
    splitOnChar sep l ≠ [] := by
  induction l with
  | nil => simp [splitOnChar]
  | cons c cs ih =>
    rw [splitOnChar]
    split
    · simp
    · split <;> simp

theorem sep_not_mem_splitOnChar (sep : Char) (l : List Char) :
    ∀ w ∈ splitOnChar sep l, sep ∉ w := by
  induction l with
  | nil =>
    intro w hw
    simp [splitOnChar] at hw
    simp [hw]
  | cons c cs ih =>
    intro w hw
    rw [splitOnChar] at hw
    by_cases hc : c = sep
    · rw [if_pos hc] at hw
      rcases List.mem_cons.mp hw with h | h
      · simp [h]
      · exact ih w h
    · rw [if_neg hc] at hw
      cases hsplit : splitOnChar sep cs with
      | nil => exact absurd hsplit (splitOnChar_ne_nil sep cs)
      | cons x xs =>
        rw [hsplit] at hw
        rcases List.mem_cons.mp hw with h | h
        · subst h
          intro hmem
          rcases List.mem_cons.mp hmem with h1 | h1
          · exact hc h1.symm
          · exact ih x (by rw [hsplit]; exact List.mem_cons_self x xs) h1
        · exact ih w (by rw [hsplit]; exact List.mem_cons_of_mem x h)

theorem joinSpace_cons_of_ne_nil (l : List Char) {ls : List (List Char)}
    (h : ls ≠ []) : joinSpace (l :: ls) = l ++ ' ' :: joinSpace ls := by
  cases ls with
  | nil => exact absurd rfl h
  | cons x xs => simp [joinSpace, joinRest]

theorem greedyLines_ne_nil (measure : List Char → Nat) (ws : List (List Char))
    (cur : List Char) : greedyLines measure cur ws ≠ [] := by
  induction ws generalizing cur with
  | nil => simp [greedyLines]
  | cons w ws ih =>
    rw [greedyLines]
    split
    · exact ih _
    · simp

theorem joinSpace_greedyLines (measure : List Char → Nat)
    (ws : List (List Char)) (cur : List Char) :
    joinSpace (greedyLines measure cur ws) = cur ++ joinRest ws := by
  induction ws generalizing cur with
  | nil => simp [greedyLines, joinSpace, joinRest]
  | cons w ws ih =>
    rw [greedyLines]
    split
    · rw [ih]
      simp [joinRest]
    · rw [joinSpace_cons_of_ne_nil _ (greedyLines_ne_nil measure ws w), ih]
      simp [joinRest]

theorem joinSpace_splitOnChar (l : List Char) :
    joinSpace (splitOnChar ' ' l) = l := by
  induction l with
  | nil => simp [splitOnChar, joinSpace, joinRest]
  | cons c cs ih =>
    rw [splitOnChar]
    by_cases hc : c = ' '
    · rw [if_pos hc,
        joinSpace_cons_of_ne_nil _ (splitOnChar_ne_nil ' ' cs), ih, hc]
      simp
    · rw [if_neg hc]
      cases hsplit : splitOnChar ' ' cs with
      | nil => exact absurd hsplit (splitOnChar_ne_nil ' ' cs)
      | cons x xs =>
        rw [hsplit] at ih
        simp only [joinSpace] at ih ⊢
        simp [ih]

theorem foldl_wrapStep_eq_greedy (measure : List Char → Nat)
    (ws : List (List Char)) :
    ∀ lines cur,
      (ws.foldl (wrapStep measure) (lines, cur)).1 ++
        [(ws.foldl (wrapStep measure) (lines, cur)).2] =
      lines ++ greedyLines measure cur ws := by
  induction ws with
  | nil =>
    intro lines cur
    simp [greedyLines]
  | cons w ws ih =>
    intro lines cur
    simp only [List.foldl_cons, wrapStep, greedyLines]
    by_cases h : measure (cur ++ ' ' :: w) < maxTextWidth
    · simp only [if_pos h]
      exact ih lines (cur ++ ' ' :: w)
    · simp only [if_neg h]
      rw [ih (lines ++ [cur]) w]
      simp

theorem wrapText_eq_greedy (measure : List Char → Nat) (title : List Char) :
    wrapText measure title = specGreedySpace measure title := by
  simp only [wrapText, specGreedySpace]
  simpa using foldl_wrapStep_eq_greedy measure (splitOnChar ' ' title).tail
    [] ((splitOnChar ' ' title).headD [])

theorem greedyLines_width (measure : List Char → Nat)
    (ws : List (List Char)) :
    ∀ cur, (' ' ∉ cur ∨ measure cur < maxTextWidth) →
      (∀ w ∈ ws, ' ' ∉ w) →
      ∀ line ∈ greedyLines measure cur ws,
        ' ' ∉ line ∨ measure line < maxTextWidth := by
  induction ws with
  | nil =>
    intro cur hcur _ line hline
    simp only [greedyLines, List.mem_singleton] at hline
    exact hline ▸ hcur
  | cons w ws ih =>
    intro cur hcur hws line hline
    rw [greedyLines] at hline
    by_cases h : measure (cur ++ ' ' :: w) < maxTextWidth
    · rw [if_pos h] at hline
      exact ih (cur ++ ' ' :: w) (Or.inr h)
        (fun x hx => hws x (List.mem_cons_of_mem w hx)) line hline
    · rw [if_neg h] at hline
      rcases List.mem_cons.mp hline with rfl | hline
      · exact hcur
      · exact ih w (Or.inl (hws w (List.mem_cons_self w ws)))
          (fun x hx => hws x (List.mem_cons_of_mem w hx)) line hline

theorem drawLines_getElem (y : Int) (ls : List (List Char)) (i : Nat) :
    (drawLines y ls)[i]? = ls[i]?.map
      (fun l => ⟨l, (canvasWidth : Int) / 2, y + i * (lineHeight : Int),
        fontSpec, fillSpec⟩) := by
  induction ls generalizing y i with
  | nil => simp [drawLines]
  | cons l ls ih =>
    cases i with
    | zero => simp [drawLines]
    | succ n =>
      simp only [drawLines, List.getElem?_cons_succ]
      rw [ih]
      cases ls[n]? with
      | none => simp
      | some l' =>
        simp only [Option.map_some']
        congr 1
        push_cast
        ring_nf

/-- C1: the claim that both renderer variants derive the filename by
replacing every character outside `[a-z0-9]` with `_` and lowercasing is
violated by `generateThumbnail`, which uses the raw title: for the title
`"A B"` it writes and returns the filename `"A B.png"`, not the sanitized
`"a_b.png"` that `generateThumbnailWithImage` produces. -/
theorem claim1_sanitization_counterexample :
    thumbFilename ("A B".data) = "A B.png".data ∧
    thumbFilename ("A B".data) ≠ sanitizeFilename ("A B".data) ++ ".png".data ∧
    outputPath ("A B".data) = "public/thumbnails/A B.png".data ∧
    returnedUrl ("A B".data) = "/thumbnails/A B.png".data ∧
    thumbFilenameWithImage ("A B".data) = "a_b.png".data := by
  decide

/-- C2 (counterexample): read literally — the words come from splitting the
title on whitespace — the reference greedy algorithm disagrees with the
renderer, because the code splits on the single space character: on the
title `"a  b"` (two spaces) the renderer keeps both spaces in its one line
while the whitespace tokenizer yields `"a b"`. -/
theorem claim2_whitespace_counterexample :
    wrapText mTen ("a  b".data) ≠ specGreedyWhitespace mTen ("a  b".data) := by
  decide

/-- C2 (amended): with the words obtained by splitting the title on the
space character (as `title.split(' ')` does, keeping empty segments), the
renderer's line sequence equals the reference greedy line-breaking
algorithm: start with the first word, append each later word when the
candidate `currentLine + " " + word` measures strictly below
`maxTextWidth = 760`, otherwise commit and restart, committing the final
line after the loop. -/
theorem claim2_wrap_matches_greedy_space_split (measure : List Char → Nat)
    (title : List Char) :
    wrapText measure title = specGreedySpace measure title :=
  wrapText_eq_greedy measure title

set_option maxRecDepth 4000 in
/-- C3: on the empty title the wrap loop yields exactly one line — the
empty string — and both render variants complete (no failure), drawing
that single blank line at the centered position and returning normally. -/
theorem claim3_empty_title_single_blank_line (measure : List Char → Nat) :
    wrapText measure [] = [[]] ∧
    textDraws measure [] = [⟨[], 400, 200, fontSpec, fillSpec⟩] ∧
    generateThumbnail measure (.ok ()) [] [] =
      (.ok ("/thumbnails/.png".data), [.writeFile ("public/thumbnails/.png".data)]) ∧
    generateThumbnailWithImage measure (.ok ()) (.ok ()) [] [] =
      (.ok ("/thumbnails/.png".data),
        [.loadImage ("public/gradient-bg.png".data),
          .writeFile ("public/thumbnails/.png".data)]) := by
  refine ⟨rfl, ?_, rfl, rfl⟩
  norm_num [textDraws, wrapText, splitOnChar, drawLines, canvasWidth,
    canvasHeight, lineHeight]

/-- C4: the claim that every non-empty title yields a path of the form
`/thumbnails/<name>.png` directly under the thumbnails directory fails for
`generateThumbnail`: the title `"../escape"` produces the URL
`/thumbnails/../escape.png` and the write path
`public/thumbnails/../escape.png`, whose filename part contains path
separators (and which `path.join` normalizes to a location outside the
thumbnails directory); the sanitized `generateThumbnailWithImage` variant
produces the well-formed `/thumbnails/___escape.png`. -/
theorem claim4_path_escape :
    returnedUrl ("../escape".data) = "/thumbnails/../escape.png".data ∧
    directThumbUrl (returnedUrl ("../escape".data)) = false ∧
    outputPath ("../escape".data) = "public/thumbnails/../escape.png".data ∧
    returnedUrlWithImage ("../escape".data) = "/thumbnails/___escape.png".data ∧
    directThumbUrl (returnedUrlWithImage ("../escape".data)) = true := by
  decide

/-- C5 (counterexample): a single word wider than the maximum text width
becomes a line on its own that does not fit within 760 pixels: with a
10-pixel-per-character metric, a 77-character word yields the one line of
measured width 770. -/
theorem claim5_overlong_word_counterexample :
    wrapText mTen (List.replicate 77 'a') = [List.replicate 77 'a'] ∧
    ¬ mTen (List.replicate 77 'a') ≤ maxTextWidth := by
  decide

/-- C5 (amended): every computed line either consists of a single word
(contains no space, so the wrap never had a chance to break it) or has
measured width strictly below `maxTextWidth = 760`. -/
theorem claim5_lines_fit_unless_single_word (measure : List Char → Nat)
    (title line : List Char) (h : line ∈ wrapText measure title) :
    ' ' ∉ line ∨ measure line < maxTextWidth := by
  rw [wrapText_eq_greedy] at h
  simp only [specGreedySpace] at h
  refine greedyLines_width measure _ _ ?_ ?_ line h
  · left
    cases hs : splitOnChar ' ' title with
    | nil => exact absurd hs (splitOnChar_ne_nil ' ' title)
    | cons x xs =>
      simp only [hs, List.headD_cons]
      exact sep_not_mem_splitOnChar ' ' title x
        (by rw [hs]; exact List.mem_cons_self x xs)
  · intro w hw
    exact sep_not_mem_splitOnChar ' ' title w (List.mem_of_mem_tail hw)

/-- Witness for C5 at the title `"hello world"`. -/
theorem claim5_witness :
    ("hello world".data ∈ wrapText mTen ("hello world".data)) ∧
    (' ' ∉ "hello world".data ∨ mTen ("hello world".data) < maxTextWidth) :=
  ⟨by decide, claim5_lines_fit_unless_single_word mTen ("hello world".data)
    ("hello world".data) (by decide)⟩

/-- C6: a failed background-image load rejects `generateThumbnailWithImage`
with that very error before any write is attempted, a failed PNG write
rejects either variant with the write error after exactly one write
attempt, and in every failing case no path is returned — there is no retry
or local recovery. -/
theorem claim6_errors_propagate (measure : List Char → Nat)
    (title : List Char) (e : Err) (writeRes : Except Err Unit) :
    generateThumbnailWithImage measure (.error e) writeRes title [] =
      (.error e, [.loadImage ("public/gradient-bg.png".data)]) ∧
    generateThumbnailWithImage measure (.ok ()) (.error e) title [] =
      (.error e, [.loadImage ("public/gradient-bg.png".data),
        .writeFile (outputPathWithImage title)]) ∧
    generateThumbnail measure (.error e) title [] =
      (.error e, [.writeFile (outputPath title)]) :=
  ⟨rfl, rfl, rfl⟩

/-- C7: with `n` computed lines, the `i`-th draw command (0-indexed) draws
the `i`-th line horizontally at `x = 800 / 2 = 400` and vertically at
`y = (400 - n * 50) / 2 + 50 / 2 + i * 50`, in line order, in the fixed
bold 40px Arial font with white fill. -/
theorem claim7_draw_positions (measure : List Char → Nat)
    (title : List Char) (i : Nat) :
    (textDraws measure title)[i]? = (wrapText measure title)[i]?.map
      (fun l => ⟨l, 400,
        ((400 : Int) - (wrapText measure title).length * 50) / 2 + 25 +
          (i : Int) * 50, fontSpec, fillSpec⟩) := by
  simp only [textDraws]
  rw [drawLines_getElem]
  cases h : (wrapText measure title)[i]? with
  | none => rfl
  | some l =>
    simp only [Option.map_some']
    congr 1

/-- C8: the two renderer variants compute identical word-wrap results and
identical text draw commands for every title and metric; the duplicated
loops of `generateThumbnail` and `generateThumbnailWithImage` agree line
for line (and hence in line count and vertical layout). -/
theorem claim8_variants_equal (measure : List Char → Nat)
    (title : List Char) :
    wrapTextWithImage measure title = wrapText measure title ∧
    textDrawsWithImage measure title = textDraws measure title :=
  ⟨rfl, rfl⟩

/-- C9: rendering is deterministic and idempotent — two runs with the same
title, metric, background asset and encoder return the same URL and the
same PNG bytes, and the second run overwrites the first file so the
filesystem after two runs equals the filesystem after one, holding exactly
those bytes at the output path. -/
theorem claim9_deterministic_idempotent (encode : Canvas → List Nat)
    (bg : List Nat) (measure : List Char → Nat) (title : List Char)
    (fs : FS) :
    (renderOnce encode bg measure title
        (renderOnce encode bg measure title fs).2).1 =
      (renderOnce encode bg measure title fs).1 ∧
    (renderOnce encode bg measure title
        (renderOnce encode bg measure title fs).2).2 =
      (renderOnce encode bg measure title fs).2 ∧
    (renderOnce encode bg measure title fs).2
        (outputPathWithImage title) =
      some (renderOnce encode bg measure title fs).1.2 := by
  refine ⟨rfl, ?_, ?_⟩
  · funext q
    simp only [renderOnce, writeFS]
    split <;> rfl
  · simp [renderOnce, writeFS]

/-- C10: joining the computed lines back together with single spaces
reconstructs the title exactly — the wrap step drops, duplicates and
reorders nothing, whatever the font metric. -/
theorem claim10_join_lines_recovers_title (measure : List Char → Nat)
    (title : List Char) :
    joinSpace (wrapText measure title) = title := by
  rw [wrapText_eq_greedy]
  simp only [specGreedySpace]
  rw [joinSpace_greedyLines]
  cases hs : splitOnChar ' ' title with
  | nil => exact absurd hs (splitOnChar_ne_nil ' ' title)
  | cons x xs =>
    simp only [hs, List.headD_cons, List.tail_cons]
    have hj := joinSpace_splitOnChar title
    rw [hs] at hj
    simpa [joinSpace] using hj

end Thumbnail
